import Mathlib

/-!
Verification of the libre-nes 6502-style processor core.

This file gives a shallow embedding, in Lean 4, of the processor and bus of
the libre-nes emulator (src/processor.cpp, src/emulator.cpp) and proves
properties of the embedded code.

Machine integers are modelled as `Nat` with explicit truncation: `% 65536`
where the C++ code stores into a `uint16_t` that may wrap, `% 256` where a
`uint8_t` may wrap, and the C++ bitwise operators `&`, `|`, `<<`, `>>`, `^`
are the corresponding `Nat` bitwise operators (identical on the in-range
values the C++ types allow).  A state is well-formed (`Machine.WF`) when its
fields are within the ranges the C++ types enforce.

State is threaded explicitly: the `Emulator` bus (2 KiB RAM plus the program
start address used for the reset vector) and the `Processor` registers are
one record, and every member function of the C++ classes becomes a function
from that record to an updated record, together with its C++ return value.
The diagnostic message printed by `Processor::get_address` /
`Processor::get_data` when the addressing mode is the `Null` sentinel is
modelled by a sticky boolean field `diag`.
-/

namespace Nes

/-- The addressing modes of the processor, including the initial, invalid
sentinel mode (`enum class Addressing` in include/processor.hpp). -/
inductive Addressing where
  | Null
  | Implied
  | Accumulator
  | Immediate
  | ZeroPage
  | ZeroPage_x
  | ZeroPage_y
  | Relative
  | Absolute
  | Absolute_x
  | Absolute_y
  | Indirect
  | Indirect_x
  | Indirect_y
deriving DecidableEq

/-- The flags of the status register (`enum class Flag` in
include/processor.hpp). -/
inductive Flag where
  | Carry
  | Zero
  | InterruptDisable
  | Decimal
  | Break
  | Unused
  | Overflow
  | Negative
deriving DecidableEq

/-- The numeric value of a flag: bit 0 is Carry, bit 1 Zero, bit 2
InterruptDisable, bit 3 Decimal, bit 4 Break, bit 5 Unused, bit 6 Overflow,
bit 7 Negative (the `1 << n` enumerator values in include/processor.hpp). -/
def Flag.val : Flag → Nat
  | .Carry => 1
  | .Zero => 2
  | .InterruptDisable => 4
  | .Decimal => 8
  | .Break => 16
  | .Unused => 32
  | .Overflow => 64
  | .Negative => 128

/-- The combined state of the emulator and its processor: the 2 KiB RAM array
and program start address of class `Emulator`, and the registers and
addressing-mode context of class `Processor`.  `ram` is total on `Nat`; the
code only ever indexes it with `addr & 0x07FF`, i.e. below 2048.  `diag`
records whether the "Invalid addressing mode!" diagnostic has been printed;
it starts `false` and no code path clears it. -/
structure Machine where
  ram : Nat → Nat
  prog_start : Nat
  x : Nat
  y : Nat
  acc : Nat
  pc : Nat
  stack_ptr : Nat
  status : Nat
  addr_mode : Addressing
  diag : Bool

/-- Well-formedness: every field is within the range of its C++ type
(`uint8_t` entries of the RAM array and 8-bit registers, 16-bit program
counter and program start address). -/
def Machine.WF (m : Machine) : Prop :=
  (∀ i, m.ram i < 256) ∧ m.prog_start < 65536 ∧ m.x < 256 ∧ m.y < 256 ∧
    m.acc < 256 ∧ m.pc < 65536 ∧ m.stack_ptr < 256 ∧ m.status < 256

/-- Embeds `Emulator::read` (src/emulator.cpp): addresses up to 0x1FFF read
the mirrored RAM cell `ram[addr & 0x07FF]`; 0xFFFC and 0xFFFD serve the low
and high byte of the program start address (the reset vector); every other
address reads 0. -/
def bus_read (m : Machine) (addr : Nat) : Nat :=
  if addr ≤ 0x1FFF then m.ram (addr &&& 0x07FF)
  else if addr = 0xFFFC then m.prog_start &&& 0x00FF
  else if addr = 0xFFFD then (m.prog_start &&& 0xFF00) >>> 8
  else 0

/-- Embeds `Emulator::write` (src/emulator.cpp): addresses up to 0x1FFF store
into the mirrored RAM cell `ram[addr & 0x07FF]`; writes anywhere else are
ignored. -/
def bus_write (m : Machine) (addr data : Nat) : Machine :=
  if addr ≤ 0x1FFF then
    { m with ram := fun i => if i = (addr &&& 0x07FF) then data else m.ram i }
  else m

/-- The fixed base address of the stack page (`stack_base` in
include/processor.hpp). -/
def stack_base : Nat := 0x0100

/-- Embeds `Processor::stack_push`: write the byte at `stack_base | stack_ptr`
and decrement the (wrapping, descending) stack pointer. -/
def stack_push (m : Machine) (byte : Nat) : Machine :=
  let addr := stack_base ||| m.stack_ptr
  let m1 := bus_write m addr byte
  { m1 with stack_ptr := (m1.stack_ptr + 255) % 256 }

/-- Embeds `Processor::stack_pull`: increment the stack pointer, then read the
byte at `stack_base | stack_ptr`. -/
def stack_pull (m : Machine) : Machine × Nat :=
  let m1 := { m with stack_ptr := (m.stack_ptr + 1) % 256 }
  (m1, bus_read m1 (stack_base ||| m1.stack_ptr))

/-- Embeds `Processor::get_flag`: the status register masked with the flag's
bit. -/
def get_flag (m : Machine) (f : Flag) : Nat := m.status &&& f.val

/-- Embeds `Processor::set_flag`: set or clear one bit of the status register
(`status |= f` / `status &= ~f`; on a `uint8_t` the complement of the one-bit
mask `f` is `0xFF ^ f`). -/
def set_flag (m : Machine) (f : Flag) (state : Bool) : Machine :=
  if state then { m with status := m.status ||| f.val }
  else { m with status := m.status &&& (0xFF ^^^ f.val) }

/-- Embeds `Processor::get_address` (src/processor.cpp): compute an absolute
address from the current addressing mode, consuming operand bytes (advancing
`pc`, a wrapping `uint16_t`).  In the `Null` mode the C++ code prints
"Invalid addressing mode!" and yields 0; the printing is modelled by setting
`diag`. -/
def get_address (m : Machine) : Machine × Nat :=
  match m.addr_mode with
  | .Null => ({ m with diag := true }, 0)
  | .Implied => (m, 0)
  | .Accumulator => (m, 0)
  | .Immediate => (m, 0)
  | .ZeroPage =>
      (({ m with pc := (m.pc + 1) % 65536 }), bus_read m m.pc &&& 0x00FF)
  | .ZeroPage_x =>
      (({ m with pc := (m.pc + 1) % 65536 }), (bus_read m m.pc + m.x) &&& 0x00FF)
  | .ZeroPage_y =>
      (({ m with pc := (m.pc + 1) % 65536 }), (bus_read m m.pc + m.y) &&& 0x00FF)
  | .Relative =>
      -- the offset byte is read at pc (which is then incremented); if its
      -- bit 7 is set the high 8 bits are filled with 1s; then the 16-bit
      -- value `pc - 2` (with pc already past the offset byte) is added,
      -- wrapping as a uint16_t
      let off := bus_read m m.pc
      let m1 := { m with pc := (m.pc + 1) % 65536 }
      let a := if off &&& 0x80 ≠ 0 then off ||| 0xFF00 else off
      (m1, (a + ((m1.pc + 65534) % 65536)) % 65536)
  | .Absolute =>
      let lo := bus_read m m.pc
      let m1 := { m with pc := (m.pc + 1) % 65536 }
      let hi := bus_read m1 m1.pc
      let m2 := { m1 with pc := (m1.pc + 1) % 65536 }
      (m2, (lo ||| hi <<< 8) % 65536)
  | .Absolute_x =>
      let lo := bus_read m m.pc
      let m1 := { m with pc := (m.pc + 1) % 65536 }
      let hi := bus_read m1 m1.pc
      let m2 := { m1 with pc := (m1.pc + 1) % 65536 }
      (m2, ((lo ||| hi <<< 8) % 65536 + m.x) % 65536)
  | .Absolute_y =>
      let lo := bus_read m m.pc
      let m1 := { m with pc := (m.pc + 1) % 65536 }
      let hi := bus_read m1 m1.pc
      let m2 := { m1 with pc := (m1.pc + 1) % 65536 }
      (m2, ((lo ||| hi <<< 8) % 65536 + m.y) % 65536)
  | .Indirect =>
      let lo := bus_read m m.pc
      let m1 := { m with pc := (m.pc + 1) % 65536 }
      let hi := bus_read m1 m1.pc
      let m2 := { m1 with pc := (m1.pc + 1) % 65536 }
      let ptr := (lo ||| hi <<< 8) % 65536
      -- hardware page-boundary bug reproduced by the source: when the
      -- pointer's low byte is 0xFF the high byte of the target is fetched
      -- from the start of the pointer's page, not from ptr + 1
      let alo := bus_read m2 ptr
      let ahi :=
        if ptr &&& 0x00FF = 0x00FF then bus_read m2 (ptr &&& 0xFF00)
        else bus_read m2 ((ptr + 1) % 65536)
      (m2, (alo ||| ahi <<< 8) % 65536)
  | .Indirect_x =>
      let p0 := bus_read m m.pc
      let m1 := { m with pc := (m.pc + 1) % 65536 }
      let ptr := (p0 + m.x) &&& 0x00FF
      let alo := bus_read m1 ptr
      let ahi := bus_read m1 ((ptr + 1) &&& 0x00FF)
      (m1, (alo ||| ahi <<< 8) % 65536)
  | .Indirect_y =>
      let ptr := bus_read m m.pc
      let m1 := { m with pc := (m.pc + 1) % 65536 }
      let alo := bus_read m1 ptr
      let ahi := bus_read m1 ((ptr + 1) &&& 0x00FF)
      (m1, ((alo ||| ahi <<< 8) % 65536 + m.y) % 65536)

/-- Embeds `Processor::get_data` (src/processor.cpp): fetch an 8-bit operand
value according to the addressing mode.  The C++ function optionally reports
the resolved address through an out-pointer, written only in the `default`
branch; that is modelled by an `Option Nat` component (`none` in the branches
where the C++ code leaves the out-parameter untouched). -/
def get_data (m : Machine) : Machine × Nat × Option Nat :=
  match m.addr_mode with
  | .Null => ({ m with diag := true }, 0, none)
  | .Implied => (m, 0, none)
  | .Accumulator => (m, m.acc, none)
  | .Immediate => ({ m with pc := (m.pc + 1) % 65536 }, bus_read m m.pc, none)
  | .Relative => (m, 0, none)
  | _ =>
      let r := get_address m
      (r.1, bus_read r.1 r.2, some r.2)

/-- Embeds `Processor::inst_lda`: load the fetched operand into the
accumulator and set the Zero and Negative flags from it. -/
def inst_lda (m : Machine) : Machine :=
  let r := get_data m
  let m1 := { r.1 with acc := r.2.1 }
  let m2 := set_flag m1 .Zero (r.2.1 == 0)
  set_flag m2 .Negative (r.2.1 &&& 0x80 != 0)

/-- Embeds `Processor::inst_ldx`. -/
def inst_ldx (m : Machine) : Machine :=
  let r := get_data m
  let m1 := { r.1 with x := r.2.1 }
  let m2 := set_flag m1 .Zero (r.2.1 == 0)
  set_flag m2 .Negative (r.2.1 &&& 0x80 != 0)

/-- Embeds `Processor::inst_ldy`. -/
def inst_ldy (m : Machine) : Machine :=
  let r := get_data m
  let m1 := { r.1 with y := r.2.1 }
  let m2 := set_flag m1 .Zero (r.2.1 == 0)
  set_flag m2 .Negative (r.2.1 &&& 0x80 != 0)

/-- Embeds `Processor::inst_sta`: store the accumulator at the resolved
address. -/
def inst_sta (m : Machine) : Machine :=
  let r := get_address m
  bus_write r.1 r.2 m.acc

/-- Embeds `Processor::inst_and`: bitwise AND with the accumulator. -/
def inst_and (m : Machine) : Machine :=
  let r := get_data m
  let a := m.acc &&& r.2.1
  let m1 := { r.1 with acc := a }
  let m2 := set_flag m1 .Zero (a == 0)
  set_flag m2 .Negative (a &&& 0x80 != 0)

/-- Embeds `Processor::inst_ora`: bitwise OR with the accumulator. -/
def inst_ora (m : Machine) : Machine :=
  let r := get_data m
  let a := m.acc ||| r.2.1
  let m1 := { r.1 with acc := a }
  let m2 := set_flag m1 .Zero (a == 0)
  set_flag m2 .Negative (a &&& 0x80 != 0)

/-- Embeds `Processor::inst_bit`: AND the accumulator with the operand
without keeping the result; the masked result (not the raw operand) is used
to set the Zero, Overflow and Negative flags. -/
def inst_bit (m : Machine) : Machine :=
  let r := get_data m
  let data := m.acc &&& r.2.1
  let m1 := set_flag r.1 .Zero (data == 0)
  let m2 := set_flag m1 .Overflow (data &&& 0x40 != 0)
  set_flag m2 .Negative (data &&& 0x80 != 0)

/-- Embeds `Processor::inst_php`: push the status register. -/
def inst_php (m : Machine) : Machine := stack_push m m.status

/-- Embeds `Processor::inst_pha`: push the accumulator. -/
def inst_pha (m : Machine) : Machine := stack_push m m.acc

/-- Embeds `Processor::inst_plp`: pull a byte and overwrite the whole status
register with it. -/
def inst_plp (m : Machine) : Machine :=
  let r := stack_pull m
  { r.1 with status := r.2 }

/-- Embeds `Processor::inst_pla`: pull a byte into the accumulator and set
Zero and Negative from it. -/
def inst_pla (m : Machine) : Machine :=
  let r := stack_pull m
  let m1 := { r.1 with acc := r.2 }
  let m2 := set_flag m1 .Zero (r.2 == 0)
  set_flag m2 .Negative (r.2 &&& 0x80 != 0)

/-- Embeds `Processor::inst_sec`: set the Carry flag. -/
def inst_sec (m : Machine) : Machine := set_flag m .Carry true

/-- Embeds `Processor::inst_asl`: arithmetic shift left of the accumulator or
of the memory operand, selected by the addressing mode.  In the C++ code the
local `addr` is written by `get_data` only in its `default` branch; in the
`Accumulator` branch it stays unused, and no dispatched opcode reaches the
memory branch without an address (the `Option.getD 0` is unreachable under
the dispatch table). -/
def inst_asl (m : Machine) : Machine :=
  let r := get_data m
  let data := r.2.1
  let m1 := set_flag r.1 .Carry (data &&& 0x80 != 0)
  let data2 := (data <<< 1) % 256
  let m2 := set_flag m1 .Negative (data2 &&& 0x80 != 0)
  if m2.addr_mode ≠ .Accumulator then bus_write m2 (r.2.2.getD 0) data2
  else { m2 with acc := data2 }

/-- Embeds `Processor::inst_lsr`: logical shift right of the accumulator or
of the memory operand. -/
def inst_lsr (m : Machine) : Machine :=
  let r := get_data m
  let data := r.2.1
  let m1 := set_flag r.1 .Carry (data &&& 0x01 != 0)
  let data2 := data >>> 1
  let m2 := set_flag m1 .Negative (data2 &&& 0x80 != 0)
  if m2.addr_mode ≠ .Accumulator then bus_write m2 (r.2.2.getD 0) data2
  else { m2 with acc := data2 }

/-- Embeds `Processor::inst_rol`: rotate left through the Carry flag. -/
def inst_rol (m : Machine) : Machine :=
  let r := get_data m
  let data := r.2.1
  let bit7 := data &&& 0x80
  let data2 := (data <<< 1) % 256 ||| get_flag r.1 .Carry
  let m1 := set_flag r.1 .Carry (bit7 != 0)
  let m2 := set_flag m1 .Negative (data2 &&& 0x80 != 0)
  if m2.addr_mode ≠ .Accumulator then bus_write m2 (r.2.2.getD 0) data2
  else { m2 with acc := data2 }

/-- Embeds `Processor::inst_jmp`: unconditional jump to the resolved
address. -/
def inst_jmp (m : Machine) : Machine :=
  let r := get_address m
  { r.1 with pc := r.2 }

/-- Embeds `Processor::inst_jsr`: resolve the subroutine address, push the
current `pc` (low byte first, then high byte), then jump. -/
def inst_jsr (m : Machine) : Machine :=
  let r := get_address m
  let m1 := stack_push r.1 (r.1.pc &&& 0x00FF)
  let m2 := stack_push m1 ((r.1.pc &&& 0xFF00) >>> 8)
  { m2 with pc := r.2 }

/-- Embeds `Processor::inst_rts`: pull two bytes and reassemble `pc` from
them, the first pulled byte becoming the high byte. -/
def inst_rts (m : Machine) : Machine :=
  let r1 := stack_pull m
  let m1 := { r1.1 with pc := (r1.2 <<< 8) % 65536 }
  let r2 := stack_pull m1
  { r2.1 with pc := (m1.pc ||| r2.2) % 65536 }

/-- Embeds `Processor::inst_bcc`: branch when the Carry flag is clear; when
the flag is set the handler returns without touching any state (in
particular without running the addressing resolver). -/
def inst_bcc (m : Machine) : Machine :=
  if get_flag m .Carry = 0 then
    let r := get_address m
    { r.1 with pc := r.2 }
  else m

/-- Embeds `Processor::inst_bcs`: branch when the Carry flag is set. -/
def inst_bcs (m : Machine) : Machine :=
  if get_flag m .Carry ≠ 0 then
    let r := get_address m
    { r.1 with pc := r.2 }
  else m

/-- Embeds `Processor::inst_beq`: branch when the Zero flag is set. -/
def inst_beq (m : Machine) : Machine :=
  if get_flag m .Zero ≠ 0 then
    let r := get_address m
    { r.1 with pc := r.2 }
  else m

/-- Embeds `Processor::inst_bne`: branch when the Zero flag is clear. -/
def inst_bne (m : Machine) : Machine :=
  if get_flag m .Zero = 0 then
    let r := get_address m
    { r.1 with pc := r.2 }
  else m

/-- Embeds `Processor::inst_bmi`: branch when the Negative flag is set. -/
def inst_bmi (m : Machine) : Machine :=
  if get_flag m .Negative ≠ 0 then
    let r := get_address m
    { r.1 with pc := r.2 }
  else m

/-- Embeds `Processor::inst_bpl`: branch when the Negative flag is clear. -/
def inst_bpl (m : Machine) : Machine :=
  if get_flag m .Negative = 0 then
    let r := get_address m
    { r.1 with pc := r.2 }
  else m

/-- Embeds `Processor::inst_bvc`: branch when the Overflow flag is clear. -/
def inst_bvc (m : Machine) : Machine :=
  if get_flag m .Overflow = 0 then
    let r := get_address m
    { r.1 with pc := r.2 }
  else m

/-- Embeds `Processor::inst_bvs`: branch when the Overflow flag is set. -/
def inst_bvs (m : Machine) : Machine :=
  if get_flag m .Overflow ≠ 0 then
    let r := get_address m
    { r.1 with pc := r.2 }
  else m

/-- Embeds `Processor::single_step` (src/processor.cpp): reset the addressing
mode to the invalid sentinel, fetch the opcode at `pc` (advancing `pc`), and
dispatch on it; opcodes outside the table fall through the `switch` and do
nothing further. -/
def single_step (m : Machine) : Machine :=
  let m0 := { m with addr_mode := .Null }
  let opcode := bus_read m0 m0.pc
  let m1 := { m0 with pc := (m0.pc + 1) % 65536 }
  if opcode = 0x06 then inst_asl { m1 with addr_mode := .ZeroPage }
  else if opcode = 0x08 then inst_php { m1 with addr_mode := .Implied }
  else if opcode = 0x0A then inst_asl { m1 with addr_mode := .Accumulator }
  else if opcode = 0x0E then inst_asl { m1 with addr_mode := .Absolute }
  else if opcode = 0x11 then inst_ora { m1 with addr_mode := .Indirect_y }
  else if opcode = 0x29 then inst_and { m1 with addr_mode := .Immediate }
  else if opcode = 0x38 then inst_sec { m1 with addr_mode := .Implied }
  else if opcode = 0x3E then inst_rol { m1 with addr_mode := .Absolute_x }
  else if opcode = 0x48 then inst_pha { m1 with addr_mode := .Implied }
  else if opcode = 0x56 then inst_lsr { m1 with addr_mode := .ZeroPage_x }
  else if opcode = 0x6C then inst_jmp { m1 with addr_mode := .Indirect }
  else if opcode = 0x81 then inst_sta { m1 with addr_mode := .Indirect_x }
  else if opcode = 0x99 then inst_sta { m1 with addr_mode := .Absolute_y }
  else if opcode = 0xA0 then inst_ldy { m1 with addr_mode := .Immediate }
  else if opcode = 0xA2 then inst_ldx { m1 with addr_mode := .Immediate }
  else if opcode = 0xA5 then inst_lda { m1 with addr_mode := .ZeroPage }
  else if opcode = 0xA9 then inst_lda { m1 with addr_mode := .Immediate }
  else if opcode = 0xB6 then inst_ldx { m1 with addr_mode := .ZeroPage_y }
  else if opcode = 0xF0 then inst_beq { m1 with addr_mode := .Relative }
  else m1

/-- The opcode values `Processor::single_step` dispatches on; every other
opcode byte falls through the `switch` statement. -/
def assigned_opcodes : List Nat :=
  [0x06, 0x08, 0x0A, 0x0E, 0x11, 0x29, 0x38, 0x3E, 0x48, 0x56,
   0x6C, 0x81, 0x99, 0xA0, 0xA2, 0xA5, 0xA9, 0xB6, 0xF0]

/-- Driver for the stack round-trip property: push a list of bytes in order,
first element first, by iterating `stack_push`. -/
def push_seq (m : Machine) : List Nat → Machine
  | [] => m
  | v :: vs => push_seq (stack_push m v) vs

/-- Driver for the stack round-trip property: pull `n` bytes by iterating
`stack_pull`, returning them in pull order. -/
def pull_seq (m : Machine) : Nat → Machine × List Nat
  | 0 => (m, [])
  | n + 1 =>
      let r := stack_pull m
      let r2 := pull_seq r.1 n
      (r2.1, r.2 :: r2.2)

/-- Execution of a `JSR` instruction the way `single_step` executes every
handler: the opcode byte is consumed and the addressing mode set before the
handler runs.  (`JSR` is not yet wired into the dispatch table of
`single_step`; its handler `inst_jsr` uses Absolute addressing.) -/
def exec_jsr (m : Machine) : Machine :=
  inst_jsr { m with addr_mode := .Absolute, pc := (m.pc + 1) % 65536 }

/-- Execution of an `RTS` instruction the way `single_step` executes every
handler: the opcode byte is consumed and the addressing mode set before the
handler runs. -/
def exec_rts (m : Machine) : Machine :=
  inst_rts { m with addr_mode := .Implied, pc := (m.pc + 1) % 65536 }


/-- A concrete state exercising the Indirect-mode page-wrap path: the pointer
bytes at `pc = 0` form `0x02FF` (low byte 0xFF), the target low byte sits at
`0x02FF` and the target high byte is fetched from `0x0200`. -/
def mC1 : Machine :=
  { ram := fun a =>
      if a = 0 then 0xFF else if a = 1 then 0x02
      else if a = 0x2FF then 0x34 else if a = 0x200 then 0x12 else 0,
    prog_start := 0, x := 0, y := 0, acc := 0, pc := 0, stack_ptr := 0xFF,
    status := 0, addr_mode := .Indirect, diag := false }

/-- A concrete state with a `BEQ` opcode at `pc = 0`, offset byte `0x05` at
address 1, and the Zero flag clear, so the branch is not taken. -/
def mC2 : Machine :=
  { ram := fun a => if a = 0 then 0xF0 else if a = 1 then 0x05 else 0,
    prog_start := 0, x := 0, y := 0, acc := 0, pc := 0, stack_ptr := 0xFF,
    status := 0, addr_mode := .Null, diag := false }

/-- A concrete state for `BIT` in Immediate mode: accumulator 0, operand byte
`0xC0` (bits 7 and 6 set) at `pc = 0`. -/
def mC3 : Machine :=
  { ram := fun a => if a = 0 then 0xC0 else 0,
    prog_start := 0, x := 0, y := 0, acc := 0, pc := 0, stack_ptr := 0xFF,
    status := 0, addr_mode := .Immediate, diag := false }

/-- A concrete state for Relative-mode resolution: the offset byte at
`pc = 0x0200` is 0. -/
def mC4 : Machine :=
  { ram := fun _ => 0,
    prog_start := 0, x := 0, y := 0, acc := 0, pc := 0x0200, stack_ptr := 0xFF,
    status := 0, addr_mode := .Relative, diag := false }

/-- A concrete state for `JSR`: handler entry with the two operand bytes at
`0x0401`/`0x0402` encoding target `0x0205`; the return address `0x0403` has
distinct high byte (0x04) and low byte (0x03). -/
def mC5 : Machine :=
  { ram := fun a => if a = 0x401 then 0x05 else if a = 0x402 then 0x02 else 0,
    prog_start := 0, x := 0, y := 0, acc := 0, pc := 0x0401, stack_ptr := 0xFF,
    status := 0, addr_mode := .Absolute, diag := false }

/-- A concrete state for the `JSR`/`RTS` round trip: a three-byte `JSR` at
address 0 targeting `0x1234` (high byte nonzero). -/
def mC6 : Machine :=
  { ram := fun a => if a = 1 then 0x34 else if a = 2 then 0x12 else 0,
    prog_start := 0, x := 0, y := 0, acc := 0, pc := 0, stack_ptr := 0xFF,
    status := 0, addr_mode := .Null, diag := false }

/-- A concrete state for the stack round-trip properties (empty descending
stack). -/
def mC7 : Machine :=
  { ram := fun _ => 0,
    prog_start := 0, x := 0, y := 0, acc := 0, pc := 0, stack_ptr := 0xFF,
    status := 0, addr_mode := .Null, diag := false }

/-- 257 bytes: one more than the 256-byte stack page can hold.  The first
pushed byte (7) is overwritten by the 257th (0). -/
def c7_list : List Nat := 7 :: List.replicate 256 0

/-- A concrete state whose next instruction is `JMP` (indirect) through the
pointer `0x0010`, whose target bytes are zero, so the jump lands back on
address 0: the step leaves `pc` exactly where it started. -/
def mC8 : Machine :=
  { ram := fun a => if a = 0 then 0x6C else if a = 1 then 0x10 else 0,
    prog_start := 0, x := 0, y := 0, acc := 0, pc := 0, stack_ptr := 0xFF,
    status := 0, addr_mode := .Null, diag := false }

/-- A concrete state whose next opcode (0x00) is not assigned in the dispatch
table. -/
def mC8b : Machine :=
  { ram := fun _ => 0,
    prog_start := 0, x := 0, y := 0, acc := 0, pc := 0, stack_ptr := 0xFF,
    status := 0, addr_mode := .Null, diag := false }

/-- A concrete state for the `PHP`/`PLP` round trip, with an arbitrary status
byte `0xB5`. -/
def mC9 : Machine :=
  { ram := fun _ => 0,
    prog_start := 0, x := 0, y := 0, acc := 0, pc := 0, stack_ptr := 10,
    status := 0xB5, addr_mode := .Null, diag := false }

/-- A concrete state with one nonzero RAM cell, for the mirroring witness. -/
def mC10 : Machine :=
  { ram := fun a => if a = 3 then 0x21 else 0,
    prog_start := 0, x := 0, y := 0, acc := 0, pc := 0, stack_ptr := 0xFF,
    status := 0, addr_mode := .Null, diag := false }


/-- Bits above position `k` contributed by `b <<< k` do not overlap a value
below `2 ^ k`, so the bitwise or is an addition. -/
theorem lor_shl_eq_add (k a b : Nat) (h : a < 2 ^ k) :
    a ||| b <<< k = a + 2 ^ k * b := by
  apply Nat.eq_of_testBit_eq
  intro i
  rw [Nat.testBit_lor, Nat.testBit_shiftLeft]
  rcases Nat.lt_or_ge i k with hik | hik
  · rw [decide_eq_false (by omega : ¬ i ≥ k), Bool.false_and, Bool.or_false]
    have h1 : (a + 2 ^ k * b) % 2 ^ k = a := by
      rw [Nat.add_mul_mod_self_left, Nat.mod_eq_of_lt h]
    calc a.testBit i = ((a + 2 ^ k * b) % 2 ^ k).testBit i := by rw [h1]
      _ = (decide (i < k) && (a + 2 ^ k * b).testBit i) := Nat.testBit_mod_two_pow _ _ _
      _ = (a + 2 ^ k * b).testBit i := by rw [decide_eq_true hik, Bool.true_and]
  · rw [decide_eq_true (by omega : i ≥ k), Bool.true_and]
    have ha : a.testBit i = false :=
      Nat.testBit_lt_two_pow (lt_of_lt_of_le h (Nat.pow_le_pow_right (by omega) hik))
    rw [ha, Bool.false_or]
    obtain ⟨j, rfl⟩ : ∃ j, i = k + j := ⟨i - k, by omega⟩
    rw [Nat.testBit_to_div_mod, Nat.testBit_to_div_mod]
    have h2 : (a + 2 ^ k * b) / 2 ^ (k + j) = b / 2 ^ j := by
      rw [Nat.pow_add, ← Nat.div_div_eq_div_mul]
      congr 1
      rw [Nat.add_mul_div_left _ _ (Nat.two_pow_pos k), Nat.div_eq_of_lt h, Nat.zero_add]
    rw [h2, Nat.add_sub_cancel_left]

/-- Composing a low byte and a high byte with `lo | hi << 8` is the
little-endian value `lo + 256 * hi`. -/
theorem lor_lo_hi (lo hi : Nat) (h : lo < 256) : lo ||| hi <<< 8 = lo + 256 * hi := by
  have h2 := lor_shl_eq_add 8 lo hi (by norm_num; omega)
  norm_num at h2
  exact h2

/-- Masking with `0xFF` is reduction modulo 256. -/
theorem and_ff_eq (x : Nat) : x &&& 0xFF = x % 256 := by
  have h := Nat.and_pow_two_sub_one_eq_mod x 8
  norm_num at h
  exact h

/-- Masking with `0x7FF` (the RAM mirroring mask) is reduction modulo 2048. -/
theorem and_7ff_eq (x : Nat) : x &&& 0x7FF = x % 2048 := by
  have h := Nat.and_pow_two_sub_one_eq_mod x 11
  norm_num at h
  exact h

/-- Extracting the high byte with `(x & 0xFF00) >> 8` is `x / 256 % 256`. -/
theorem and_ff00_shr_eq (x : Nat) : (x &&& 0xFF00) >>> 8 = x / 256 % 256 := by
  apply Nat.eq_of_testBit_eq
  intro i
  rw [Nat.testBit_shiftRight, Nat.testBit_and]
  rw [show (256 : Nat) = 2 ^ 8 by norm_num, Nat.testBit_mod_two_pow]
  rw [← Nat.shiftRight_eq_div_pow, Nat.testBit_shiftRight]
  rcases Nat.lt_or_ge i 8 with h8 | h8
  · have ht : (0xFF00 : Nat).testBit (8 + i) = true := by
      interval_cases i <;> decide
    rw [ht, decide_eq_true h8, Bool.and_true, Bool.true_and]
  · have ht : (0xFF00 : Nat).testBit (8 + i) = false := by
      have hlt : (0xFF00 : Nat) < 2 ^ (8 + i) := by
        calc (0xFF00 : Nat) < 2 ^ 16 := by norm_num
          _ ≤ 2 ^ (8 + i) := Nat.pow_le_pow_right (by omega) (by omega)
      exact Nat.testBit_lt_two_pow hlt
    rw [ht, decide_eq_false (by omega : ¬ i < 8), Bool.and_false, Bool.false_and]

/-- Masking with `0xFF00` keeps exactly the second byte:
`x & 0xFF00 = x / 256 % 256 * 256`. -/
theorem and_ff00_eq (x : Nat) : x &&& 0xFF00 = x / 256 % 256 * 256 := by
  apply Nat.eq_of_testBit_eq
  intro i
  rw [Nat.testBit_and]
  rw [show x / 256 % 256 * 256 = (x / 256 % 256) <<< 8 by
    rw [Nat.shiftLeft_eq]]
  rw [Nat.testBit_shiftLeft]
  rcases Nat.lt_or_ge i 8 with h8 | h8
  · rw [decide_eq_false (by omega : ¬ i ≥ 8), Bool.false_and]
    have ht : (0xFF00 : Nat).testBit i = false := by
      interval_cases i <;> decide
    rw [ht, Bool.and_false]
  · rw [decide_eq_true (by omega : i ≥ 8), Bool.true_and]
    rw [show (256 : Nat) = 2 ^ 8 by norm_num, Nat.testBit_mod_two_pow]
    rw [← Nat.shiftRight_eq_div_pow, Nat.testBit_shiftRight]
    obtain ⟨j, rfl⟩ : ∃ j, i = 8 + j := ⟨i - 8, by omega⟩
    rw [Nat.add_sub_cancel_left]
    rcases Nat.lt_or_ge j 8 with hj | hj
    · have ht : (0xFF00 : Nat).testBit (8 + j) = true := by
        interval_cases j <;> decide
      rw [ht, Bool.and_true, decide_eq_true hj, Bool.true_and]
    · have ht : (0xFF00 : Nat).testBit (8 + j) = false := by
        have hlt : (0xFF00 : Nat) < 2 ^ (8 + j) := by
          calc (0xFF00 : Nat) < 2 ^ 16 := by norm_num
            _ ≤ 2 ^ (8 + j) := Nat.pow_le_pow_right (by omega) (by omega)
        exact Nat.testBit_lt_two_pow hlt
      rw [ht, Bool.and_false, decide_eq_false (by omega : ¬ j < 8), Bool.false_and]

/-- Or-ing the stack page base into an in-range stack pointer is addition
(the two have no overlapping bits). -/
theorem stack_base_lor (s : Nat) (h : s < 256) : stack_base ||| s = 256 + s := by
  have h2 := lor_shl_eq_add 8 s 1 (by norm_num; omega)
  rw [Nat.lor_comm] at h2
  rw [stack_base, show (0x0100 : Nat) = 1 <<< 8 from rfl, h2]
  norm_num
  omega

/-- The bus never reads a value that does not fit in a byte, provided RAM
holds bytes and the program start address fits in 16 bits. -/
theorem bus_read_lt (m : Machine) (hram : ∀ i, m.ram i < 256)
    (addr : Nat) : bus_read m addr < 256 := by
  unfold bus_read
  split_ifs
  · exact hram _
  · rw [and_ff_eq]; omega
  · rw [and_ff00_shr_eq]; omega
  · omega

/-- A bus read below 0x2000 is a read of the mirrored RAM cell. -/
theorem bus_read_low (m : Machine) (addr : Nat) (h : addr ≤ 0x1FFF) :
    bus_read m addr = m.ram (addr % 2048) := by
  rw [bus_read, if_pos h, and_7ff_eq]

/-- A bus write below 0x2000 updates the mirrored RAM cell. -/
theorem bus_write_low (m : Machine) (addr data : Nat) (h : addr ≤ 0x1FFF) :
    bus_write m addr data =
      { m with ram := fun i => if i = addr % 2048 then data else m.ram i } := by
  rw [bus_write, if_pos h, and_7ff_eq]

/-- Unfolding of `stack_push` on a well-formed stack pointer: the byte lands
in RAM at `0x0100 + stack_ptr` and the stack pointer decrements mod 256. -/
theorem stack_push_eq (m : Machine) (v : Nat) (hs : m.stack_ptr < 256) :
    stack_push m v =
      { m with ram := fun i => if i = 256 + m.stack_ptr then v else m.ram i,
               stack_ptr := (m.stack_ptr + 255) % 256 } := by
  rw [stack_push]
  rw [show stack_base ||| m.stack_ptr = 256 + m.stack_ptr from stack_base_lor _ hs]
  rw [bus_write_low _ _ _ (by omega)]
  have : (256 + m.stack_ptr) % 2048 = 256 + m.stack_ptr := Nat.mod_eq_of_lt (by omega)
  rw [this]

/-- Unfolding of `stack_pull` on a well-formed stack pointer: the stack
pointer increments mod 256 and the byte is read from RAM at
`0x0100 + ((stack_ptr + 1) % 256)`. -/
theorem stack_pull_eq (m : Machine) :
    stack_pull m =
      ({ m with stack_ptr := (m.stack_ptr + 1) % 256 },
       m.ram (256 + (m.stack_ptr + 1) % 256)) := by
  rw [stack_pull]
  have h1 : stack_base ||| (m.stack_ptr + 1) % 256 = 256 + (m.stack_ptr + 1) % 256 :=
    stack_base_lor _ (by omega)
  rw [h1, bus_read_low _ _ (by omega)]
  have : (256 + (m.stack_ptr + 1) % 256) % 2048 = 256 + (m.stack_ptr + 1) % 256 :=
    Nat.mod_eq_of_lt (by omega)
  rw [this]

/-- Reading the bus ignores the program counter. -/
theorem bus_read_set_pc (m : Machine) (v z : Nat) :
    bus_read { m with pc := v } z = bus_read m z := rfl

/-- Reading the bus ignores the addressing-mode context. -/
theorem bus_read_set_mode (m : Machine) (am : Addressing) (z : Nat) :
    bus_read { m with addr_mode := am } z = bus_read m z := rfl

set_option maxRecDepth 4000 in
/-- Claim C10: for addresses 0x0000-0x1FFF the bus reads and writes the RAM
cell at index `addr % 2048`, so all mirror addresses of a RAM cell read
equal; reads of 0x2000-0xFFFB return 0; writes above 0x1FFF leave the state
unchanged. -/
theorem bus_ram_mirroring (m : Machine) (a j d : Nat) :
    (a ≤ 0x1FFF → bus_read m a = m.ram (a % 2048)) ∧
    (a ≤ 0x1FFF → bus_write m a d =
      { m with ram := fun i => if i = a % 2048 then d else m.ram i }) ∧
    (j < 2048 →
      bus_read m (j + 0x800) = m.ram j ∧
      bus_read m (j + 0x1000) = m.ram j ∧
      bus_read m (j + 0x1800) = m.ram j) ∧
    (0x2000 ≤ a → a ≤ 0xFFFB → bus_read m a = 0) ∧
    (0x1FFF < a → bus_write m a d = m) := by
  refine ⟨fun h => bus_read_low m a h, fun h => bus_write_low m a d h, fun hj => ?_, ?_, ?_⟩
  · refine ⟨?_, ?_, ?_⟩ <;>
      (rw [bus_read_low _ _ (by omega)]; congr 1; omega)
  · intro h1 h2
    rw [bus_read]
    rw [if_neg (by omega), if_neg (by omega), if_neg (by omega)]
  · intro h
    rw [bus_write, if_neg (by omega)]

/-- Witness for C10 at a concrete state and concrete addresses: address
0x0803 mirrors RAM cell 3, a write to 0xFFFC is ignored, and 0x2000 reads
0. -/
theorem bus_ram_mirroring_witness :
    bus_read mC10 0x0803 = mC10.ram (0x0803 % 2048) ∧
    bus_read mC10 0x2000 = 0 ∧
    bus_write mC10 0xFFFC 7 = mC10 := by
  refine ⟨(bus_ram_mirroring mC10 0x0803 0 7).1 (by norm_num),
          ((bus_ram_mirroring mC10 0x2000 0 7).2.2.2.1 (by norm_num) (by norm_num)),
          ((bus_ram_mirroring mC10 0xFFFC 0 7).2.2.2.2 (by norm_num))⟩

/-- Claim C1: Indirect-mode resolution reads the little-endian pointer from
the two bytes at `pc`, then reads the little-endian target at that pointer,
except that when the pointer's low byte is 0xFF the target's high byte comes
from the start of the pointer's page (`ptr / 256 * 256`), not from
`ptr + 1`. -/
theorem indirect_page_wrap (m : Machine) (hram : ∀ i, m.ram i < 256)
    (hm : m.addr_mode = .Indirect) :
    (get_address m).1 = { m with pc := (m.pc + 2) % 65536 } ∧
    (get_address m).2 =
      (let ptr := bus_read m m.pc + 256 * bus_read m ((m.pc + 1) % 65536)
       let hi_addr := if ptr % 256 = 0xFF then ptr / 256 * 256 else ptr + 1
       bus_read m ptr + 256 * bus_read m hi_addr) := by
  obtain ⟨ram, ps, xr, yr, ac, pc, sp, st, am, dg⟩ := m
  obtain rfl : am = Addressing.Indirect := hm
  have hcol : ∀ v z, bus_read ⟨ram, ps, xr, yr, ac, v, sp, st, .Indirect, dg⟩ z =
      bus_read ⟨ram, ps, xr, yr, ac, pc, sp, st, .Indirect, dg⟩ z := fun v z => rfl
  simp only [get_address, hcol]
  have hlo := bus_read_lt ⟨ram, ps, xr, yr, ac, pc, sp, st, .Indirect, dg⟩ hram pc
  have hhi := bus_read_lt ⟨ram, ps, xr, yr, ac, pc, sp, st, .Indirect, dg⟩ hram ((pc + 1) % 65536)
  set lo := bus_read ⟨ram, ps, xr, yr, ac, pc, sp, st, .Indirect, dg⟩ pc with hlo_def
  set hi := bus_read ⟨ram, ps, xr, yr, ac, pc, sp, st, .Indirect, dg⟩ ((pc + 1) % 65536) with hhi_def
  rw [lor_lo_hi _ _ hlo]
  have hptr : (lo + 256 * hi) % 65536 = lo + 256 * hi := Nat.mod_eq_of_lt (by omega)
  rw [hptr]
  constructor
  · simp only [Machine.mk.injEq, and_true, true_and]
    omega
  · rw [and_ff_eq, and_ff00_eq]
    have hd : (lo + 256 * hi) / 256 % 256 = (lo + 256 * hi) / 256 := by
      apply Nat.mod_eq_of_lt
      omega
    rw [hd]
    have htlo := bus_read_lt ⟨ram, ps, xr, yr, ac, pc, sp, st, .Indirect, dg⟩ hram (lo + 256 * hi)
    by_cases hff : (lo + 256 * hi) % 256 = 0xFF
    · rw [if_pos hff, if_pos hff]
      rw [lor_lo_hi _ _ htlo]
      exact Nat.mod_eq_of_lt (by
        have := bus_read_lt ⟨ram, ps, xr, yr, ac, pc, sp, st, .Indirect, dg⟩ hram
          ((lo + 256 * hi) / 256 * 256)
        omega)
    · rw [if_neg hff, if_neg hff]
      have h1 : (lo + 256 * hi + 1) % 65536 = lo + 256 * hi + 1 :=
        Nat.mod_eq_of_lt (by omega)
      rw [h1, lor_lo_hi _ _ htlo]
      exact Nat.mod_eq_of_lt (by
        have := bus_read_lt ⟨ram, ps, xr, yr, ac, pc, sp, st, .Indirect, dg⟩ hram
          (lo + 256 * hi + 1)
        omega)

/-- Witness for C1 at the concrete state `mC1`: the pointer is 0x02FF, so
the target high byte is fetched from 0x0200 and the resolved address is
0x1234. -/
theorem indirect_page_wrap_witness :
    (get_address mC1).1 = { mC1 with pc := 2 } ∧ (get_address mC1).2 = 0x1234 := by
  have h := indirect_page_wrap mC1
    (by intro i; simp only [mC1]; split_ifs <;> norm_num) rfl
  exact ⟨h.1.trans (by rfl), h.2.trans (by rfl)⟩

/-- `set_flag` changes only the status register. -/
@[simp] theorem set_flag_ram (m : Machine) (f : Flag) (b : Bool) :
    (set_flag m f b).ram = m.ram := by
  unfold set_flag; split <;> rfl

@[simp] theorem set_flag_pc (m : Machine) (f : Flag) (b : Bool) :
    (set_flag m f b).pc = m.pc := by
  unfold set_flag; split <;> rfl

@[simp] theorem set_flag_acc (m : Machine) (f : Flag) (b : Bool) :
    (set_flag m f b).acc = m.acc := by
  unfold set_flag; split <;> rfl

@[simp] theorem set_flag_x (m : Machine) (f : Flag) (b : Bool) :
    (set_flag m f b).x = m.x := by
  unfold set_flag; split <;> rfl

@[simp] theorem set_flag_y (m : Machine) (f : Flag) (b : Bool) :
    (set_flag m f b).y = m.y := by
  unfold set_flag; split <;> rfl

@[simp] theorem set_flag_stack_ptr (m : Machine) (f : Flag) (b : Bool) :
    (set_flag m f b).stack_ptr = m.stack_ptr := by
  unfold set_flag; split <;> rfl

@[simp] theorem set_flag_mode (m : Machine) (f : Flag) (b : Bool) :
    (set_flag m f b).addr_mode = m.addr_mode := by
  unfold set_flag; split <;> rfl

@[simp] theorem set_flag_diag (m : Machine) (f : Flag) (b : Bool) :
    (set_flag m f b).diag = m.diag := by
  unfold set_flag; split <;> rfl

@[simp] theorem set_flag_prog_start (m : Machine) (f : Flag) (b : Bool) :
    (set_flag m f b).prog_start = m.prog_start := by
  unfold set_flag; split <;> rfl

/-- Every flag mask fits in a byte. -/
theorem flag_val_lt (f : Flag) : f.val < 256 := by
  cases f <;> simp [Flag.val]

/-- Setting or clearing a flag keeps the status register a byte. -/
theorem set_flag_status_lt (m : Machine) (f : Flag) (b : Bool)
    (hst : m.status < 256) : (set_flag m f b).status < 256 := by
  have h255 : f.val < 256 := flag_val_lt f
  cases b
  case false =>
    have hs : (set_flag m f false).status = m.status &&& (0xFF ^^^ f.val) := rfl
    rw [hs]
    have hxor : 0xFF ^^^ f.val < 2 ^ 8 :=
      Nat.xor_lt_two_pow (by norm_num) (by norm_num; omega)
    have h := Nat.and_lt_two_pow m.status hxor
    norm_num at h
    exact h
  case true =>
    have hs : (set_flag m f true).status = m.status ||| f.val := rfl
    rw [hs]
    have h := Nat.or_lt_two_pow (x := m.status) (y := f.val) (n := 8)
      (by norm_num; omega) (by norm_num; omega)
    norm_num at h
    exact h

/-- Effect of `set_flag` on the individual bits of the status register:
bit `k` of the flag becomes the given boolean, every other bit is kept. -/
theorem set_flag_testBit (m : Machine) (f : Flag) (b : Bool) (i k : Nat)
    (hst : m.status < 256) (hk : f.val = 2 ^ k) (hk8 : k < 8) :
    (set_flag m f b).status.testBit i =
      if i = k then b else m.status.testBit i := by
  have hff : ∀ j : Nat, (0xFF : Nat).testBit j = decide (j < 8) := by
    intro j
    rw [show (0xFF : Nat) = 2 ^ 8 - 1 by norm_num, Nat.testBit_two_pow_sub_one]
  cases b
  case false =>
    have hs : (set_flag m f false).status = m.status &&& (0xFF ^^^ f.val) := rfl
    rw [hs, hk, Nat.testBit_and, Nat.testBit_xor, hff]
    by_cases hik : i = k
    · subst hik
      rw [Nat.testBit_two_pow_self, if_pos rfl, decide_eq_true (by omega : i < 8)]
      simp
    · rw [if_neg hik, Nat.testBit_two_pow_of_ne (fun h => hik h.symm)]
      by_cases h8 : i < 8
      · rw [decide_eq_true h8]
        simp
      · rw [decide_eq_false h8]
        have h256 : (256 : Nat) ≤ 2 ^ i := by
          calc (256 : Nat) = 2 ^ 8 := by norm_num
            _ ≤ 2 ^ i := Nat.pow_le_pow_right (by omega) (by omega)
        have h2 : m.status.testBit i = false :=
          Nat.testBit_lt_two_pow (lt_of_lt_of_le hst h256)
        rw [h2]
        simp
  case true =>
    have hs : (set_flag m f true).status = m.status ||| f.val := rfl
    rw [hs, hk, Nat.testBit_or]
    by_cases hik : i = k
    · subst hik
      rw [Nat.testBit_two_pow_self, if_pos rfl]
      simp
    · rw [if_neg hik, Nat.testBit_two_pow_of_ne (fun h => hik h.symm)]
      simp

set_option maxRecDepth 10000 in
/-- Bit 7 of a byte is set exactly when the byte is at least 0x80. -/
theorem byte_msb : ∀ b < 256, ((b &&& 0x80 ≠ 0) ↔ 0x80 ≤ b) := by decide

/-- The boolean `x & 2^k != 0` is exactly bit `k` of `x`. -/
theorem and_pow_ne_testBit (d k : Nat) : (d &&& 2 ^ k != 0) = d.testBit k := by
  rw [Nat.and_two_pow]
  cases h : d.testBit k <;> simp [h]

/-- Claim C4 (amended): Relative-mode resolution consumes the offset byte and
returns the 16-bit sum, modulo 65536, of the sign-extended offset and the
address two below the byte following the offset — that is, the resolver adds
the offset to `pc - 2` (the address of the byte before the offset byte), not
to the address immediately following the offset byte. -/
theorem relative_resolution (m : Machine) (hram : ∀ i, m.ram i < 256)
    (hm : m.addr_mode = .Relative) :
    (get_address m).1 = { m with pc := (m.pc + 1) % 65536 } ∧
    (get_address m).2 =
      ((if bus_read m m.pc < 0x80 then bus_read m m.pc else 0xFF00 + bus_read m m.pc) +
        ((m.pc + 1) % 65536 + 65534) % 65536) % 65536 := by
  obtain ⟨ram, ps, xr, yr, ac, pc, sp, st, am, dg⟩ := m
  obtain rfl : am = Addressing.Relative := hm
  refine ⟨rfl, ?_⟩
  simp only [get_address]
  have hoff := bus_read_lt ⟨ram, ps, xr, yr, ac, pc, sp, st, .Relative, dg⟩ hram pc
  set off := bus_read ⟨ram, ps, xr, yr, ac, pc, sp, st, .Relative, dg⟩ pc with hoff_def
  have hmsb := byte_msb off hoff
  by_cases hb : off &&& 0x80 ≠ 0
  · rw [if_pos hb, if_neg (by omega : ¬ off < 0x80)]
    have h2 := lor_shl_eq_add 8 off 0xFF (by norm_num; omega)
    rw [Nat.shiftLeft_eq] at h2
    norm_num at h2
    rw [h2]
    have : off + 65280 = 65280 + off := by omega
    rw [this]
  · have hb0 : off &&& 0x80 = 0 := not_not.mp hb
    rw [if_neg hb, if_pos (show off < 0x80 by
      by_contra hcon
      push_neg at hcon
      exact (hmsb.mpr hcon) hb0)]

/-- Counterexample for C4 as stated: with the offset byte 0 at `pc = 0x0200`,
the resolver yields `0x01FF` (the address of the opcode plus the offset),
not `0x0201` (the address following the offset byte plus the offset). -/
theorem relative_resolution_counterexample :
    (get_address mC4).1.pc = 0x0201 ∧ bus_read mC4 mC4.pc = 0 ∧
      (get_address mC4).2 = 0x01FF ∧ (get_address mC4).2 ≠ 0 + 0x0201 := by
  refine ⟨by decide, by decide, by decide, by decide⟩

/-- Witness for the amended C4 at the concrete state `mC4`. -/
theorem relative_resolution_witness :
    (get_address mC4).1 = { mC4 with pc := 0x0201 } ∧ (get_address mC4).2 = 0x01FF := by
  have h := relative_resolution mC4
    (by intro i; simp only [mC4]; norm_num) rfl
  exact ⟨h.1.trans (by rfl), h.2.trans (by rfl)⟩

/-- Claim C2 (code bug): a `BEQ` whose condition is false leaves `pc`
pointing at the offset byte — the operand is not consumed, where the spec
requires `pc` to point just past the consumed offset byte.  At `mC2` the
`BEQ` opcode is at 0, the offset byte at 1, the Zero flag is clear, and the
step ends with `pc = 1`, not 2. -/
theorem beq_not_taken_leaves_operand :
    single_step mC2 = { mC2 with pc := 1, addr_mode := .Relative } ∧
      (single_step mC2).pc ≠ 2 := by
  exact ⟨rfl, by decide⟩

/-- Claim C3 (amended): `BIT` (here in Immediate mode, which feeds it an
arbitrary operand byte) computes `A & operand` without storing it, and sets
Zero to whether that masked result is 0, Overflow to bit 6 of the masked
result, and Negative to bit 7 of the masked result (not of the raw operand);
`A`, memory and the remaining status bits are unchanged. -/
theorem bit_flags_from_result (m : Machine) (hram : ∀ i, m.ram i < 256)
    (hst : m.status < 256) (hm : m.addr_mode = .Immediate) :
    (inst_bit m).acc = m.acc ∧
    (inst_bit m).ram = m.ram ∧
    (inst_bit m).pc = (m.pc + 1) % 65536 ∧
    ((inst_bit m).status.testBit 1 = decide (m.acc &&& bus_read m m.pc = 0)) ∧
    ((inst_bit m).status.testBit 6 = (m.acc &&& bus_read m m.pc).testBit 6) ∧
    ((inst_bit m).status.testBit 7 = (m.acc &&& bus_read m m.pc).testBit 7) ∧
    (∀ i, i ≠ 1 → i ≠ 6 → i ≠ 7 →
      (inst_bit m).status.testBit i = m.status.testBit i) := by
  obtain ⟨ram, ps, xr, yr, ac, pc, sp, st, am, dg⟩ := m
  obtain rfl : am = Addressing.Immediate := hm
  set M : Machine := ⟨ram, ps, xr, yr, ac, pc, sp, st, .Immediate, dg⟩ with hM
  set d := ac &&& bus_read M pc with hd_def
  set C : Machine := { M with pc := (M.pc + 1) % 65536 } with hC
  set B := set_flag C .Zero (d == 0) with hB
  set A := set_flag B .Overflow (d &&& 0x40 != 0) with hA
  have hib : inst_bit M = set_flag A .Negative (d &&& 0x80 != 0) := rfl
  have hstC : C.status < 256 := hst
  have hstB : B.status < 256 := set_flag_status_lt _ _ _ hstC
  have hstA : A.status < 256 := set_flag_status_lt _ _ _ hstB
  have h7 : ∀ i, (set_flag A .Negative (d &&& 0x80 != 0)).status.testBit i =
      if i = 7 then (d &&& 0x80 != 0) else A.status.testBit i :=
    fun i => set_flag_testBit A .Negative _ i 7 hstA rfl (by omega)
  have h6 : ∀ i, A.status.testBit i =
      if i = 6 then (d &&& 0x40 != 0) else B.status.testBit i :=
    fun i => set_flag_testBit B .Overflow _ i 6 hstB rfl (by omega)
  have h1 : ∀ i, B.status.testBit i =
      if i = 1 then (d == 0) else C.status.testBit i :=
    fun i => set_flag_testBit C .Zero _ i 1 hstC rfl (by omega)
  rw [hib]
  refine ⟨by simp [hA, hB, hC], by simp [hA, hB, hC], by simp [hA, hB, hC], ?_, ?_, ?_, ?_⟩
  · rw [h7 1, if_neg (by omega), h6 1, if_neg (by omega), h1 1, if_pos rfl]
    by_cases hd : d = 0 <;> simp [hd]
  · rw [h7 6, if_neg (by omega), h6 6, if_pos rfl]
    rw [show (0x40 : Nat) = 2 ^ 6 from rfl]
    exact and_pow_ne_testBit d 6
  · rw [h7 7, if_pos rfl]
    rw [show (0x80 : Nat) = 2 ^ 7 from rfl]
    exact and_pow_ne_testBit d 7
  · intro i hi1 hi6 hi7
    rw [h7 i, if_neg hi7, h6 i, if_neg hi6, h1 i, if_neg hi1]

/-- Counterexample for C3 as stated: with accumulator 0 and operand 0xC0
(bits 7 and 6 set), `BIT` clears Negative and Overflow, because the code
takes them from `A & operand = 0`, not from the raw operand as claimed. -/
theorem bit_flags_counterexample :
    (inst_bit mC3).status.testBit 7 = false ∧
    (inst_bit mC3).status.testBit 6 = false ∧
    (bus_read mC3 mC3.pc).testBit 7 = true ∧
    (bus_read mC3 mC3.pc).testBit 6 = true := by
  refine ⟨by decide, by decide, by decide, by decide⟩

/-- Witness for the amended C3 at the concrete state `mC3`: the masked
result is 0, so Zero is set and Overflow and Negative are cleared. -/
theorem bit_flags_witness :
    (inst_bit mC3).acc = 0 ∧ (inst_bit mC3).pc = 1 ∧
    (inst_bit mC3).status.testBit 1 = true ∧
    (inst_bit mC3).status.testBit 6 = false ∧
    (inst_bit mC3).status.testBit 7 = false := by
  have h := bit_flags_from_result mC3
    (by intro i; simp only [mC3]; split_ifs <;> norm_num) (by decide) rfl
  exact ⟨h.1.trans (by rfl), h.2.2.1.trans (by rfl),
    h.2.2.2.1.trans (by decide), h.2.2.2.2.1.trans (by decide),
    h.2.2.2.2.2.1.trans (by decide)⟩

/-- Claim C9: `PHP` pushes the stored status byte exactly as-is (no bit is
forced on), and `PLP` overwrites the whole status register with the pulled
byte, so `PHP` followed by `PLP` restores the status register and the stack
pointer. -/
theorem php_plp_round_trip (m : Machine) (hsp : m.stack_ptr < 256) :
    (inst_php m).ram (256 + m.stack_ptr) = m.status ∧
    (inst_plp (inst_php m)).status = m.status ∧
    (inst_plp (inst_php m)).stack_ptr = m.stack_ptr := by
  have hpush := stack_push_eq m m.status hsp
  have hPsp : (stack_push m m.status).stack_ptr = (m.stack_ptr + 255) % 256 := by
    rw [hpush]
  have hret : ((m.stack_ptr + 255) % 256 + 1) % 256 = m.stack_ptr := by omega
  refine ⟨?_, ?_, ?_⟩
  · rw [inst_php, hpush]
    simp
  · rw [inst_plp, inst_php, stack_pull_eq, hpush]
    simp only [hret]
    simp
  · rw [inst_plp, inst_php, stack_pull_eq, hpush]
    simp only [hret]

/-- Witness for C9 at the concrete state `mC9` (status byte 0xB5,
stack pointer 10). -/
theorem php_plp_round_trip_witness :
    (inst_php mC9).ram 266 = 0xB5 ∧
    (inst_plp (inst_php mC9)).status = 0xB5 ∧
    (inst_plp (inst_php mC9)).stack_ptr = 10 := by
  have h := php_plp_round_trip mC9 (by decide)
  exact ⟨h.1.trans (by rfl), h.2.1.trans (by rfl), h.2.2.trans (by rfl)⟩

/-- `stack_push` decrements the stack pointer modulo 256. -/
@[simp] theorem stack_push_sp (m : Machine) (v : Nat) :
    (stack_push m v).stack_ptr = (m.stack_ptr + 255) % 256 := by
  unfold stack_push bus_write
  dsimp only
  split <;> rfl

@[simp] theorem stack_push_pc (m : Machine) (v : Nat) :
    (stack_push m v).pc = m.pc := by
  unfold stack_push bus_write
  dsimp only
  split <;> rfl

@[simp] theorem stack_push_acc (m : Machine) (v : Nat) :
    (stack_push m v).acc = m.acc := by
  unfold stack_push bus_write
  dsimp only
  split <;> rfl

@[simp] theorem stack_push_status (m : Machine) (v : Nat) :
    (stack_push m v).status = m.status := by
  unfold stack_push bus_write
  dsimp only
  split <;> rfl

@[simp] theorem stack_push_mode (m : Machine) (v : Nat) :
    (stack_push m v).addr_mode = m.addr_mode := by
  unfold stack_push bus_write
  dsimp only
  split <;> rfl

@[simp] theorem stack_push_diag (m : Machine) (v : Nat) :
    (stack_push m v).diag = m.diag := by
  unfold stack_push bus_write
  dsimp only
  split <;> rfl

/-- The byte pushed by `stack_push` is read back at `0x0100 + stack_ptr`. -/
theorem stack_push_ram_at (m : Machine) (v j : Nat) (hs : m.stack_ptr < 256)
    (hj : j = 256 + m.stack_ptr) : (stack_push m v).ram j = v := by
  rw [stack_push_eq m v hs]
  simp [hj]

/-- `stack_push` leaves every other RAM cell unchanged. -/
theorem stack_push_ram_ne (m : Machine) (v j : Nat) (hs : m.stack_ptr < 256)
    (hj : j ≠ 256 + m.stack_ptr) : (stack_push m v).ram j = m.ram j := by
  rw [stack_push_eq m v hs]
  simp [hj]

/-- The state part of `stack_pull` only increments the stack pointer. -/
theorem stack_pull_fst (m : Machine) :
    (stack_pull m).1 = { m with stack_ptr := (m.stack_ptr + 1) % 256 } := rfl

/-- The byte returned by `stack_pull` is the RAM cell at
`0x0100 + ((stack_ptr + 1) % 256)`. -/
theorem stack_pull_val (m : Machine) :
    (stack_pull m).2 = m.ram (256 + (m.stack_ptr + 1) % 256) := by
  rw [stack_pull_eq]

/-- Claim C5 (amended): `JSR` resolves the target first, then pushes the
return address (the `pc` value after consuming both operand bytes) low byte
first and high byte second, then sets `pc` to the target; `RTS` pulls the
high byte first, then the low byte, and reassembles `pc`.  (The two orders
are each other's exact inverse.) -/
theorem jsr_rts_byte_order (m mr : Machine) (hram : ∀ i, m.ram i < 256)
    (hsp : m.stack_ptr < 256) (hm : m.addr_mode = .Absolute)
    (hramr : ∀ i, mr.ram i < 256) :
    ((inst_jsr m).pc = bus_read m m.pc + 256 * bus_read m ((m.pc + 1) % 65536) ∧
     (inst_jsr m).ram (256 + m.stack_ptr) = (m.pc + 2) % 65536 % 256 ∧
     (inst_jsr m).ram (256 + (m.stack_ptr + 255) % 256) = (m.pc + 2) % 65536 / 256 ∧
     (inst_jsr m).stack_ptr = (m.stack_ptr + 254) % 256) ∧
    ((inst_rts mr).pc =
       256 * mr.ram (256 + (mr.stack_ptr + 1) % 256) +
         mr.ram (256 + (mr.stack_ptr + 2) % 256) ∧
     (inst_rts mr).stack_ptr = (mr.stack_ptr + 2) % 256) := by
  constructor
  · obtain ⟨ram, ps, xr, yr, ac, pc, sp, st, am, dg⟩ := m
    obtain rfl : am = Addressing.Absolute := hm
    set M : Machine := ⟨ram, ps, xr, yr, ac, pc, sp, st, .Absolute, dg⟩ with hM
    have hcol : ∀ v z, bus_read ⟨ram, ps, xr, yr, ac, v, sp, st, .Absolute, dg⟩ z =
        bus_read M z := fun v z => rfl
    have hlo := bus_read_lt M hram pc
    have hhi := bus_read_lt M hram ((pc + 1) % 65536)
    set lo := bus_read M pc with hlo_def
    set hi := bus_read M ((pc + 1) % 65536) with hhi_def
    set M1 : Machine :=
      ⟨ram, ps, xr, yr, ac, ((pc + 1) % 65536 + 1) % 65536, sp, st, .Absolute, dg⟩ with hM1
    have hga : get_address M = (M1, (lo ||| hi <<< 8) % 65536) := by
      simp only [get_address, hcol]
    refine ⟨?_, ?_, ?_, ?_⟩ <;> simp only [inst_jsr, hga]
    · rw [lor_lo_hi _ _ hlo]
      omega
    · rw [stack_push_ram_ne _ _ _ (by rw [stack_push_sp]; omega)
        (by rw [stack_push_sp]; show 256 + sp ≠ 256 + (sp + 255) % 256; omega)]
      rw [stack_push_ram_at _ _ _ (show M1.stack_ptr < 256 from hsp) rfl]
      rw [and_ff_eq]
      show ((pc + 1) % 65536 + 1) % 65536 % 256 = (pc + 2) % 65536 % 256
      omega
    · rw [stack_push_ram_at _ _ _ (by rw [stack_push_sp]; omega)
        (by rw [stack_push_sp])]
      rw [and_ff00_shr_eq]
      show ((pc + 1) % 65536 + 1) % 65536 / 256 % 256 = (pc + 2) % 65536 / 256
      omega
    · rw [stack_push_sp, stack_push_sp]
      show ((sp + 255) % 256 + 255) % 256 = (sp + 254) % 256
      omega
  · obtain ⟨ram, ps, xr, yr, ac, pc, sp, st, am, dg⟩ := mr
    have hv1 : ram (256 + (sp + 1) % 256) < 256 := hramr _
    have hv2 : ram (256 + ((sp + 1) % 256 + 1) % 256) < 256 := hramr _
    have hidx : ((sp + 1) % 256 + 1) % 256 = (sp + 2) % 256 := by omega
    constructor
    · simp only [inst_rts, stack_pull_fst, stack_pull_val]
      have hsh : (ram (256 + (sp + 1) % 256) <<< 8) % 65536 =
          ram (256 + (sp + 1) % 256) <<< 8 := by
        rw [Nat.shiftLeft_eq]
        omega
      rw [hsh, Nat.lor_comm, lor_lo_hi _ _ hv2]
      rw [hidx] at hv2 ⊢
      omega
    · simp only [inst_rts, stack_pull_fst, stack_pull_val]
      omega

/-- Counterexample for C5 as stated: at `mC5` the return address is 0x0403;
the first pushed byte (landing at the top stack slot 0x01FF) is its low
byte 0x03, not its high byte 0x04 as the claimed push order requires. -/
theorem jsr_pushes_low_byte_first :
    (inst_jsr mC5).ram 0x1FF = 0x03 ∧ (mC5.pc + 2) % 65536 / 256 = 0x04 ∧
    (inst_jsr mC5).ram 0x1FF ≠ (mC5.pc + 2) % 65536 / 256 := by
  refine ⟨by decide, by decide, by decide⟩

/-- Witness for the amended C5 at the concrete state `mC5`. -/
theorem jsr_rts_byte_order_witness :
    (inst_jsr mC5).pc = 0x0205 ∧
    (inst_jsr mC5).ram (256 + mC5.stack_ptr) = 0x03 ∧
    (inst_jsr mC5).ram (256 + (mC5.stack_ptr + 255) % 256) = 0x04 ∧
    (inst_rts mC5).pc = 256 * mC5.ram 0x100 + mC5.ram 0x101 := by
  have h := jsr_rts_byte_order mC5 mC5
    (by intro i; simp only [mC5]; split_ifs <;> norm_num) (by decide) rfl
    (by intro i; simp only [mC5]; split_ifs <;> norm_num)
  exact ⟨h.1.1.trans (by decide), h.1.2.1.trans (by decide),
    h.1.2.2.1.trans (by decide), h.2.1.trans (by rfl)⟩

/-- Claim C6: executing `JSR` (three-byte instruction: opcode plus two
target bytes, any target including ones with nonzero high byte) followed
immediately by `RTS` restores `pc` to the address just past the `JSR`
instruction and restores the stack pointer. -/
theorem jsr_rts_round_trip (m : Machine) (hram : ∀ i, m.ram i < 256)
    (hsp : m.stack_ptr < 256) :
    (exec_rts (exec_jsr m)).pc = (m.pc + 3) % 65536 ∧
    (exec_rts (exec_jsr m)).stack_ptr = m.stack_ptr := by
  obtain ⟨ram, ps, xr, yr, ac, pc, sp, st, am, dg⟩ := m
  have hsp2 : sp < 256 := hsp
  have hret : ((((pc + 1) % 65536 + 1) % 65536 + 1) % 65536) = (pc + 3) % 65536 := by
    omega
  simp only [exec_jsr, exec_rts, inst_jsr, inst_rts, get_address,
    stack_pull_fst, stack_pull_val, stack_push_sp, stack_push_pc]
  rw [hret]
  have hiA : ((((sp + 255) % 256 + 255) % 256 + 1) % 256) = (sp + 255) % 256 := by
    omega
  rw [hiA]
  have hiB : (((sp + 255) % 256 + 1) % 256) = sp := by omega
  rw [hiB]
  rw [stack_push_ram_at _ _ _ (by rw [stack_push_sp]; omega) (by rw [stack_push_sp])]
  rw [stack_push_ram_ne _ _ _ (by rw [stack_push_sp]; omega)
    (by rw [stack_push_sp]; show 256 + sp ≠ 256 + (sp + 255) % 256; omega)]
  rw [stack_push_ram_at _ _ _ (show sp < 256 from hsp) rfl]
  rw [and_ff_eq, and_ff00_shr_eq]
  have hlo2 : (pc + 3) % 65536 % 256 < 256 := by omega
  have hsh : (((pc + 3) % 65536 / 256 % 256) <<< 8) % 65536 =
      ((pc + 3) % 65536 / 256 % 256) <<< 8 := by
    rw [Nat.shiftLeft_eq]
    omega
  rw [hsh, Nat.lor_comm, lor_lo_hi _ _ hlo2]
  constructor
  · omega
  · omega

/-- Witness for C6 at the concrete state `mC6`: a `JSR` at address 0 to the
target 0x1234, followed by `RTS`, ends with `pc = 3` and the stack pointer
back at 0xFF. -/
theorem jsr_rts_round_trip_witness :
    (exec_rts (exec_jsr mC6)).pc = 3 ∧
    (exec_rts (exec_jsr mC6)).stack_ptr = 0xFF := by
  have h := jsr_rts_round_trip mC6
    (by intro i; simp only [mC6]; split_ifs <;> norm_num) (by decide)
  exact ⟨h.1.trans (by rfl), h.2.trans (by rfl)⟩

/-- Pulling `n` times advances the stack pointer by `n` modulo 256. -/
theorem pull_seq_sp (n : Nat) : ∀ m : Machine, m.stack_ptr < 256 →
    (pull_seq m n).1.stack_ptr = (m.stack_ptr + n) % 256 := by
  induction n with
  | zero =>
      intro m hs
      show m.stack_ptr = (m.stack_ptr + 0) % 256
      omega
  | succ n ih =>
      intro m hs
      show (pull_seq (stack_pull m).1 n).1.stack_ptr = _
      rw [ih (stack_pull m).1 (by rw [stack_pull_fst]; show (m.stack_ptr + 1) % 256 < 256; omega)]
      rw [stack_pull_fst]
      show ((m.stack_ptr + 1) % 256 + n) % 256 = (m.stack_ptr + (n + 1)) % 256
      omega

/-- The sequence of values produced by `n` pulls depends only on the stack
pointer and on the `n` RAM cells of the pull window. -/
theorem pull_seq_vals (n : Nat) : ∀ S T : Machine,
    S.stack_ptr = T.stack_ptr → S.stack_ptr < 256 →
    (∀ j, 1 ≤ j → j ≤ n →
      S.ram (256 + (S.stack_ptr + j) % 256) = T.ram (256 + (T.stack_ptr + j) % 256)) →
    (pull_seq S n).2 = (pull_seq T n).2 := by
  induction n with
  | zero => intro S T _ _ _; rfl
  | succ n ih =>
      intro S T hsp hlt hram
      show (stack_pull S).2 :: (pull_seq (stack_pull S).1 n).2 =
        (stack_pull T).2 :: (pull_seq (stack_pull T).1 n).2
      have hhead : (stack_pull S).2 = (stack_pull T).2 := by
        rw [stack_pull_val, stack_pull_val]
        exact hram 1 (by omega) (by omega)
      have htail : (pull_seq (stack_pull S).1 n).2 = (pull_seq (stack_pull T).1 n).2 := by
        apply ih
        · rw [stack_pull_fst, stack_pull_fst]
          show (S.stack_ptr + 1) % 256 = (T.stack_ptr + 1) % 256
          rw [hsp]
        · rw [stack_pull_fst]
          show (S.stack_ptr + 1) % 256 < 256
          omega
        · intro j hj1 hjn
          rw [stack_pull_fst, stack_pull_fst]
          show S.ram (256 + ((S.stack_ptr + 1) % 256 + j) % 256) =
            T.ram (256 + ((T.stack_ptr + 1) % 256 + j) % 256)
          have h1 : ((S.stack_ptr + 1) % 256 + j) % 256 = (S.stack_ptr + (j + 1)) % 256 := by
            omega
          have h2 : ((T.stack_ptr + 1) % 256 + j) % 256 = (T.stack_ptr + (j + 1)) % 256 := by
            omega
          rw [h1, h2]
          exact hram (j + 1) (by omega) (by omega)
      rw [hhead, htail]

/-- Appending one more byte to a push sequence pushes it last. -/
theorem push_seq_concat (ys : List Nat) : ∀ (m : Machine) (v : Nat),
    push_seq m (ys ++ [v]) = stack_push (push_seq m ys) v := by
  induction ys with
  | nil => intro m v; rfl
  | cons y ys ih =>
      intro m v
      show push_seq (stack_push m y) (ys ++ [v]) = _
      rw [ih]
      rfl

/-- Pushing `n` bytes retreats the stack pointer by `n` modulo 256. -/
theorem push_seq_sp (vs : List Nat) : ∀ m : Machine, m.stack_ptr < 256 →
    (push_seq m vs).stack_ptr = (m.stack_ptr + 255 * vs.length) % 256 := by
  induction vs with
  | nil =>
      intro m hs
      show m.stack_ptr = (m.stack_ptr + 255 * 0) % 256
      omega
  | cons v vs ih =>
      intro m hs
      show (push_seq (stack_push m v) vs).stack_ptr = _
      rw [ih (stack_push m v) (by rw [stack_push_sp]; omega), stack_push_sp]
      show ((m.stack_ptr + 255) % 256 + 255 * vs.length) % 256 =
        (m.stack_ptr + 255 * (vs.length + 1)) % 256
      omega

/-- Pushing a list of at most 256 bytes and then pulling as many yields the
pushed bytes in reverse order. -/
theorem push_pull_reverse (vs : List Nat) : ∀ m : Machine, m.stack_ptr < 256 →
    vs.length ≤ 256 → (pull_seq (push_seq m vs) vs.length).2 = vs.reverse := by
  induction vs using List.reverseRecOn with
  | nil => intro m _ _; rfl
  | append_singleton ys v ih =>
      intro m hsp hlen
      rw [push_seq_concat]
      have hyslen : ys.length ≤ 255 := by
        have := hlen
        simp only [List.length_append, List.length_singleton] at this
        omega
      have hMsp : (push_seq m ys).stack_ptr = (m.stack_ptr + 255 * ys.length) % 256 :=
        push_seq_sp ys m hsp
      have hMlt : (push_seq m ys).stack_ptr < 256 := by rw [hMsp]; omega
      have hlen2 : (ys ++ [v]).length = ys.length + 1 := by
        simp only [List.length_append, List.length_singleton]
      rw [hlen2]
      show (stack_pull (stack_push (push_seq m ys) v)).2 ::
          (pull_seq (stack_pull (stack_push (push_seq m ys) v)).1 ys.length).2 =
        (ys ++ [v]).reverse
      have hidx : (((push_seq m ys).stack_ptr + 255) % 256 + 1) % 256 =
          (push_seq m ys).stack_ptr := by omega
      have hhead : (stack_pull (stack_push (push_seq m ys) v)).2 = v := by
        rw [stack_pull_val, stack_push_sp, hidx]
        exact stack_push_ram_at _ _ _ hMlt rfl
      have htail : (pull_seq (stack_pull (stack_push (push_seq m ys) v)).1 ys.length).2 =
          (pull_seq (push_seq m ys) ys.length).2 := by
        apply pull_seq_vals
        · rw [stack_pull_fst]
          show ((stack_push (push_seq m ys) v).stack_ptr + 1) % 256 = _
          rw [stack_push_sp, hidx]
        · rw [stack_pull_fst]
          show ((stack_push (push_seq m ys) v).stack_ptr + 1) % 256 < 256
          omega
        · intro j hj1 hjn
          rw [stack_pull_fst]
          show (stack_push (push_seq m ys) v).ram
              (256 + (((stack_push (push_seq m ys) v).stack_ptr + 1) % 256 + j) % 256) = _
          rw [stack_push_sp, hidx]
          rw [stack_push_ram_ne _ _ _ hMlt (by
            intro hcon
            have : ((push_seq m ys).stack_ptr + j) % 256 = (push_seq m ys).stack_ptr := by
              omega
            omega)]
      rw [hhead, htail, ih m hsp (by omega)]
      rw [List.reverse_append]
      rfl

/-- Claim C7 (amended): pulling immediately after pushing `v` returns `v`;
and for every sequence of at most 256 pushed bytes, pushing them all and
then pulling as many returns the stack pointer to its original value and
yields exactly the pushed bytes in reverse (LIFO) order.  (With more than
256 pushes the 256-byte stack page wraps and earlier bytes are
overwritten.) -/
theorem stack_lifo_round_trip (m : Machine) (v : Nat) (vs : List Nat)
    (hsp : m.stack_ptr < 256) (hv : v < 256) (hlen : vs.length ≤ 256) :
    (stack_pull (stack_push m v)).2 = v ∧
    (pull_seq (push_seq m vs) vs.length).2 = vs.reverse ∧
    (pull_seq (push_seq m vs) vs.length).1.stack_ptr = m.stack_ptr := by
  refine ⟨?_, push_pull_reverse vs m hsp hlen, ?_⟩
  · rw [stack_pull_val, stack_push_sp]
    have hidx : ((m.stack_ptr + 255) % 256 + 1) % 256 = m.stack_ptr := by omega
    rw [hidx]
    exact stack_push_ram_at _ _ _ hsp rfl
  · rw [pull_seq_sp _ _ (by rw [push_seq_sp vs m hsp]; omega), push_seq_sp vs m hsp]
    omega

/-- The list of `n + 1` pulled values is the list of the first `n` followed
by the last pull. -/
theorem pull_seq_snoc (n : Nat) : ∀ m : Machine,
    (pull_seq m (n + 1)).2 = (pull_seq m n).2 ++ [(stack_pull (pull_seq m n).1).2] := by
  induction n with
  | zero => intro m; rfl
  | succ n ih =>
      intro m
      show (stack_pull m).2 :: (pull_seq (stack_pull m).1 (n + 1)).2 = _
      rw [ih]
      rfl

/-- Pulling never writes RAM. -/
theorem pull_seq_ram (n : Nat) : ∀ m : Machine, (pull_seq m n).1.ram = m.ram := by
  induction n with
  | zero => intro m; rfl
  | succ n ih =>
      intro m
      show (pull_seq (stack_pull m).1 n).1.ram = m.ram
      rw [ih]
      rfl

/-- Counterexample for C7 as stated: pushing 257 bytes wraps the 256-byte
stack page, so the first byte pushed (7) is overwritten by the 257th (0),
and the 257th pulled byte is 0 where the reverse of the pushed sequence
ends in 7. -/
theorem stack_overflow_breaks_lifo :
    (pull_seq (push_seq mC7 c7_list) c7_list.length).2 ≠ c7_list.reverse := by
  have hlen : c7_list.length = 257 := by
    show (7 :: List.replicate 256 0).length = 257
    rw [List.length_cons, List.length_replicate]
  have hsplit : c7_list = (7 :: List.replicate 255 0) ++ [0] := by
    show 7 :: List.replicate 256 0 = _
    rw [show (256 : Nat) = 255 + 1 from rfl, List.replicate_succ']
    rfl
  have hMsp : (push_seq mC7 c7_list).stack_ptr = 254 := by
    rw [push_seq_sp _ _ (by decide), hlen]
    show (255 + 255 * 257) % 256 = 254
    norm_num
  have hram511 : (push_seq mC7 c7_list).ram 511 = 0 := by
    rw [hsplit, push_seq_concat]
    have hsp9 : (push_seq mC7 (7 :: List.replicate 255 0)).stack_ptr = 255 := by
      rw [push_seq_sp _ _ (by decide)]
      rw [show (7 :: List.replicate 255 0).length = 256 by
        rw [List.length_cons, List.length_replicate]]
      show (255 + 255 * 256) % 256 = 255
      norm_num
    rw [stack_push_ram_at _ _ _ (by rw [hsp9]; omega) (by rw [hsp9])]
  have hlast : (stack_pull (pull_seq (push_seq mC7 c7_list) 256).1).2 = 0 := by
    rw [stack_pull_val]
    have hsp2 : (pull_seq (push_seq mC7 c7_list) 256).1.stack_ptr = 254 := by
      rw [pull_seq_sp _ _ (by rw [hMsp]; omega), hMsp]
    rw [hsp2, show (256 : Nat) + (254 + 1) % 256 = 511 by norm_num, pull_seq_ram]
    exact hram511
  have h2 : c7_list.reverse.getLast? = some 7 := by
    rw [List.getLast?_reverse]
    rfl
  rw [hlen, show (257 : Nat) = 256 + 1 from rfl, pull_seq_snoc]
  intro hcon
  have h1 : ((pull_seq (push_seq mC7 c7_list) 256).2 ++
      [(stack_pull (pull_seq (push_seq mC7 c7_list) 256).1).2]).getLast? =
      some ((stack_pull (pull_seq (push_seq mC7 c7_list) 256).1).2) :=
    List.getLast?_concat _
  rw [hcon, h2, hlast] at h1
  exact absurd h1 (by decide)

/-- Witness for the amended C7 at the concrete state `mC7` with the list
`[1, 2, 3]`. -/
theorem stack_lifo_round_trip_witness :
    (stack_pull (stack_push mC7 7)).2 = 7 ∧
    (pull_seq (push_seq mC7 [1, 2, 3]) 3).2 = [3, 2, 1] ∧
    (pull_seq (push_seq mC7 [1, 2, 3]) 3).1.stack_ptr = 0xFF := by
  have h := stack_lifo_round_trip mC7 7 [1, 2, 3] (by decide) (by decide) (by decide)
  exact ⟨h.1, h.2.1.trans (by rfl), h.2.2.trans (by rfl)⟩

/-- `bus_write` never touches the diagnostic flag. -/
@[simp] theorem bus_write_diag (m : Machine) (a d : Nat) :
    (bus_write m a d).diag = m.diag := by
  unfold bus_write
  split <;> rfl

/-- `stack_pull` never touches the diagnostic flag. -/
@[simp] theorem stack_pull_diag (m : Machine) : (stack_pull m).1.diag = m.diag := rfl

/-- With any valid addressing mode set, `get_address` does not emit the
invalid-addressing-mode diagnostic. -/
theorem get_address_diag (m : Machine) (h : m.addr_mode ≠ .Null) :
    (get_address m).1.diag = m.diag := by
  cases hm : m.addr_mode
  case Null => exact absurd hm h
  all_goals simp only [get_address, hm]

/-- With any valid addressing mode set, `get_data` does not emit the
invalid-addressing-mode diagnostic. -/
theorem get_data_diag (m : Machine) (h : m.addr_mode ≠ .Null) :
    (get_data m).1.diag = m.diag := by
  cases hm : m.addr_mode
  case Null => exact absurd hm h
  all_goals simp only [get_data, hm]
  all_goals exact get_address_diag m h

theorem inst_asl_diag (m : Machine) (h : m.addr_mode ≠ .Null) :
    (inst_asl m).diag = m.diag := by
  have hgd := get_data_diag m h
  unfold inst_asl
  dsimp only
  split <;> simp [hgd]

theorem inst_lsr_diag (m : Machine) (h : m.addr_mode ≠ .Null) :
    (inst_lsr m).diag = m.diag := by
  have hgd := get_data_diag m h
  unfold inst_lsr
  dsimp only
  split <;> simp [hgd]

theorem inst_rol_diag (m : Machine) (h : m.addr_mode ≠ .Null) :
    (inst_rol m).diag = m.diag := by
  have hgd := get_data_diag m h
  unfold inst_rol
  dsimp only
  split <;> simp [hgd]

theorem inst_php_diag (m : Machine) : (inst_php m).diag = m.diag := by
  simp [inst_php]

theorem inst_pha_diag (m : Machine) : (inst_pha m).diag = m.diag := by
  simp [inst_pha]

theorem inst_sec_diag (m : Machine) : (inst_sec m).diag = m.diag := by
  simp [inst_sec]

theorem inst_and_diag (m : Machine) (h : m.addr_mode ≠ .Null) :
    (inst_and m).diag = m.diag := by
  have hgd := get_data_diag m h
  simp [inst_and, hgd]

theorem inst_ora_diag (m : Machine) (h : m.addr_mode ≠ .Null) :
    (inst_ora m).diag = m.diag := by
  have hgd := get_data_diag m h
  simp [inst_ora, hgd]

theorem inst_lda_diag (m : Machine) (h : m.addr_mode ≠ .Null) :
    (inst_lda m).diag = m.diag := by
  have hgd := get_data_diag m h
  simp [inst_lda, hgd]

theorem inst_ldx_diag (m : Machine) (h : m.addr_mode ≠ .Null) :
    (inst_ldx m).diag = m.diag := by
  have hgd := get_data_diag m h
  simp [inst_ldx, hgd]

theorem inst_ldy_diag (m : Machine) (h : m.addr_mode ≠ .Null) :
    (inst_ldy m).diag = m.diag := by
  have hgd := get_data_diag m h
  simp [inst_ldy, hgd]

theorem inst_sta_diag (m : Machine) (h : m.addr_mode ≠ .Null) :
    (inst_sta m).diag = m.diag := by
  have hga := get_address_diag m h
  simp [inst_sta, hga]

theorem inst_jmp_diag (m : Machine) (h : m.addr_mode ≠ .Null) :
    (inst_jmp m).diag = m.diag := by
  have hga := get_address_diag m h
  simp [inst_jmp, hga]

theorem inst_beq_diag (m : Machine) (h : m.addr_mode ≠ .Null) :
    (inst_beq m).diag = m.diag := by
  have hga := get_address_diag m h
  unfold inst_beq
  split
  · simp [hga]
  · rfl

set_option maxHeartbeats 2000000 in
/-- Claim C8 (amended): for all 256 opcode byte values and every machine
state, a single execution step (a total function of the state) never emits
the invalid-addressing-mode diagnostic; and for opcode values not assigned
an instruction, the step consumes exactly the one opcode byte (`pc`
advances by one modulo 65536) and leaves every register, every flag, and
all memory unchanged.  (A step need not advance `pc` overall: a taken jump
or branch may set `pc` back at or before the opcode's own address.) -/
theorem step_dispatch_total (m : Machine) :
    (single_step m).diag = m.diag ∧
    (bus_read m m.pc ∉ assigned_opcodes →
      single_step m = { m with pc := (m.pc + 1) % 65536, addr_mode := .Null }) := by
  constructor
  · unfold single_step
    dsimp only [bus_read_set_mode]
    by_cases h1 : bus_read m m.pc = 0x06
    · rw [if_pos h1]
      apply inst_asl_diag
      simp
    rw [if_neg h1]
    by_cases h2 : bus_read m m.pc = 0x08
    · rw [if_pos h2]
      exact inst_php_diag _
    rw [if_neg h2]
    by_cases h3 : bus_read m m.pc = 0x0A
    · rw [if_pos h3]
      apply inst_asl_diag
      simp
    rw [if_neg h3]
    by_cases h4 : bus_read m m.pc = 0x0E
    · rw [if_pos h4]
      apply inst_asl_diag
      simp
    rw [if_neg h4]
    by_cases h5 : bus_read m m.pc = 0x11
    · rw [if_pos h5]
      apply inst_ora_diag
      simp
    rw [if_neg h5]
    by_cases h6 : bus_read m m.pc = 0x29
    · rw [if_pos h6]
      apply inst_and_diag
      simp
    rw [if_neg h6]
    by_cases h7 : bus_read m m.pc = 0x38
    · rw [if_pos h7]
      exact inst_sec_diag _
    rw [if_neg h7]
    by_cases h8 : bus_read m m.pc = 0x3E
    · rw [if_pos h8]
      apply inst_rol_diag
      simp
    rw [if_neg h8]
    by_cases h9 : bus_read m m.pc = 0x48
    · rw [if_pos h9]
      exact inst_pha_diag _
    rw [if_neg h9]
    by_cases h10 : bus_read m m.pc = 0x56
    · rw [if_pos h10]
      apply inst_lsr_diag
      simp
    rw [if_neg h10]
    by_cases h11 : bus_read m m.pc = 0x6C
    · rw [if_pos h11]
      apply inst_jmp_diag
      simp
    rw [if_neg h11]
    by_cases h12 : bus_read m m.pc = 0x81
    · rw [if_pos h12]
      apply inst_sta_diag
      simp
    rw [if_neg h12]
    by_cases h13 : bus_read m m.pc = 0x99
    · rw [if_pos h13]
      apply inst_sta_diag
      simp
    rw [if_neg h13]
    by_cases h14 : bus_read m m.pc = 0xA0
    · rw [if_pos h14]
      apply inst_ldy_diag
      simp
    rw [if_neg h14]
    by_cases h15 : bus_read m m.pc = 0xA2
    · rw [if_pos h15]
      apply inst_ldx_diag
      simp
    rw [if_neg h15]
    by_cases h16 : bus_read m m.pc = 0xA5
    · rw [if_pos h16]
      apply inst_lda_diag
      simp
    rw [if_neg h16]
    by_cases h17 : bus_read m m.pc = 0xA9
    · rw [if_pos h17]
      apply inst_lda_diag
      simp
    rw [if_neg h17]
    by_cases h18 : bus_read m m.pc = 0xB6
    · rw [if_pos h18]
      apply inst_ldx_diag
      simp
    rw [if_neg h18]
    by_cases h19 : bus_read m m.pc = 0xF0
    · rw [if_pos h19]
      apply inst_beq_diag
      simp
    rw [if_neg h19]
  · intro h
    simp only [assigned_opcodes, List.mem_cons, List.not_mem_nil, or_false, not_or] at h
    obtain ⟨h1, h2, h3, h4, h5, h6, h7, h8, h9, h10,
      h11, h12, h13, h14, h15, h16, h17, h18, h19⟩ := h
    unfold single_step
    dsimp only [bus_read_set_mode]
    rw [if_neg h1, if_neg h2, if_neg h3, if_neg h4, if_neg h5, if_neg h6,
      if_neg h7, if_neg h8, if_neg h9, if_neg h10, if_neg h11, if_neg h12,
      if_neg h13, if_neg h14, if_neg h15, if_neg h16, if_neg h17, if_neg h18,
      if_neg h19]

/-- Counterexample for C8 as stated: the indirect `JMP` at `mC8` jumps back
to its own address, so the step does not advance `pc` by at least one. -/
theorem step_jmp_self_no_advance :
    (single_step mC8).pc = mC8.pc ∧ mC8.pc = 0 := by
  refine ⟨by decide, by decide⟩

/-- Witness for the amended C8 at the concrete state `mC8b`, whose next
opcode (0x00) is unassigned: no diagnostic, and only the opcode byte is
consumed. -/
theorem step_dispatch_total_witness :
    (single_step mC8b).diag = mC8b.diag ∧
    single_step mC8b = { mC8b with pc := 1, addr_mode := .Null } := by
  have h := step_dispatch_total mC8b
  exact ⟨h.1, (h.2 (by decide)).trans (by rfl)⟩

end Nes
